import Mathlib

/-!
Verification development for the mediV repository.

We shallowly embed the structured-data extraction pipeline of
`src/backend/main.py` and the keyword-matching prescription engine of
`src/prescription_module/` into Lean.  Python strings are modelled as
`List Char`, Python `dict`s produced by `json.loads` as association lists
(lookup is last-wins, matching assignment into a `dict`), and JSON numbers
keep their literal text (integer literals are all the claims exercise).
-/

namespace MediV

set_option maxRecDepth 8000

/-- ASCII lower-casing, as Python `str.lower()` on the ASCII inputs used here. -/
def lowerChars (s : List Char) : List Char := s.map Char.toLower

/-- ASCII upper-casing, as Python `str.upper()` on the ASCII inputs used here. -/
def upperChars (s : List Char) : List Char := s.map Char.toUpper

/-- The characters Python `str.strip()` removes. -/
def pyIsSpace (c : Char) : Bool :=
  c == ' ' || c == '\t' || c == '\n' || c == '\x0d' || c == '\x0b' || c == '\x0c'

/-- Python `str.strip()`: drop leading and trailing whitespace. -/
def pyStrip (s : List Char) : List Char :=
  ((s.dropWhile pyIsSpace).reverse.dropWhile pyIsSpace).reverse

/-- Python `needle in haystack` substring containment. -/
def isSubstr (needle hay : List Char) : Bool :=
  (List.range (hay.length + 1)).any (fun i => (hay.drop i).take needle.length == needle)

/-- Python `str.find(ch)`: index of the first occurrence, `none` for -1. -/
def strFind (s : List Char) (c : Char) : Option Nat :=
  s.findIdx? (· == c)

/-- Python `str.rfind(ch)`: index of the last occurrence, `none` for -1. -/
def strRFind (s : List Char) (c : Char) : Option Nat :=
  match (s.reverse.findIdx? (· == c)) with
  | none => none
  | some i => some (s.length - 1 - i)

/-- Digits-only string to `Nat`, as Python `int` on a `\d+` regex capture. -/
def natOfDigits (s : List Char) : Nat :=
  s.foldl (fun acc c => acc * 10 + (c.toNat - '0'.toNat)) 0

/-- JSON values as produced by `json.loads`.  Numbers keep their literal
text; objects are ordered key/value lists (Python dict insertion order). -/
inductive Json where
  | null : Json
  | bool : Bool → Json
  | num : List Char → Json
  | str : List Char → Json
  | arr : List Json → Json
  | obj : List (List Char × Json) → Json

/-- Membership test for a key, Python `k in obj`. -/
def jMem (o : List (List Char × Json)) (k : List Char) : Bool :=
  o.any (fun p => p.1 == k)

/-- Python `obj[k]` / `obj.get(k)`: last binding wins, as for a `dict`
built by successive assignment. -/
def jGet (o : List (List Char × Json)) (k : List Char) : Option Json :=
  (o.filter (fun p => p.1 == k)).getLast? |>.map Prod.snd

/-- Python truthiness of a JSON-decoded value (`if x:`). -/
def jTruthy : Json → Bool
  | Json.null => false
  | Json.bool b => b
  | Json.num lit => !(lit.filter Char.isDigit).all (· == '0')
  | Json.str s => !s.isEmpty
  | Json.arr l => !l.isEmpty
  | Json.obj o => !o.isEmpty

/-- JSON whitespace accepted by `json.loads` between tokens. -/
def jsonWs (c : Char) : Bool := c == ' ' || c == '\t' || c == '\n' || c == '\x0d'

/-- Hex digit test (`[0-9a-fA-F]`). -/
def isHexDig (c : Char) : Bool :=
  c.isDigit || ('a' ≤ c && c ≤ 'f') || ('A' ≤ c && c ≤ 'F')

/-- Hex digit value. -/
def hexVal (c : Char) : Nat :=
  if c.isDigit then c.toNat - '0'.toNat
  else if 'a' ≤ c ∧ c ≤ 'f' then c.toNat - 'a'.toNat + 10
  else if 'A' ≤ c ∧ c ≤ 'F' then c.toNat - 'A'.toNat + 10
  else 0

/-- Literal text of a JSON number: `-?(0|[1-9][0-9]*)(\.[0-9]+)?([eE][+-]?[0-9]+)?`. -/
def parseNum (s : List Char) : Option (Json × List Char) :=
  let (sign, s1) := match s with
    | '-' :: r => (['-'], r)
    | _ => ([], s)
  let intPart := s1.takeWhile Char.isDigit
  let r1 := s1.dropWhile Char.isDigit
  if intPart = [] then none
  else if intPart.length > 1 ∧ intPart.headD '0' = '0' then none
  else
    let (frac, r2) := match r1 with
      | '.' :: r => (('.' :: r.takeWhile Char.isDigit), r.dropWhile Char.isDigit)
      | _ => ([], r1)
    if frac = ['.'] then none
    else
      let (ex, r3) := match r2 with
        | 'e' :: '+' :: r => ('e' :: '+' :: r.takeWhile Char.isDigit, r.dropWhile Char.isDigit)
        | 'e' :: '-' :: r => ('e' :: '-' :: r.takeWhile Char.isDigit, r.dropWhile Char.isDigit)
        | 'e' :: r => ('e' :: r.takeWhile Char.isDigit, r.dropWhile Char.isDigit)
        | 'E' :: '+' :: r => ('E' :: '+' :: r.takeWhile Char.isDigit, r.dropWhile Char.isDigit)
        | 'E' :: '-' :: r => ('E' :: '-' :: r.takeWhile Char.isDigit, r.dropWhile Char.isDigit)
        | 'E' :: r => ('E' :: r.takeWhile Char.isDigit, r.dropWhile Char.isDigit)
        | _ => ([], r2)
      if ex ≠ [] ∧ ¬ (ex.getLastD 'e').isDigit then none
      else some (Json.num (sign ++ intPart ++ frac ++ ex), r3)

mutual

/-- One JSON value at the head of the input; returns it with the rest.
Recursive descent mirroring the grammar `json.loads` accepts. -/
def parseVal (fuel : Nat) (s : List Char) : Option (Json × List Char) :=
  match fuel with
  | 0 => none
  | fuel + 1 =>
    match s.dropWhile jsonWs with
    | 'n' :: 'u' :: 'l' :: 'l' :: r => some (Json.null, r)
    | 't' :: 'r' :: 'u' :: 'e' :: r => some (Json.bool true, r)
    | 'f' :: 'a' :: 'l' :: 's' :: 'e' :: r => some (Json.bool false, r)
    | '"' :: r => (parseStrBody fuel r []).map (fun p => (Json.str p.1, p.2))
    | '[' :: r =>
      match (r.dropWhile jsonWs) with
      | ']' :: r2 => some (Json.arr [], r2)
      | _ => (parseArrItems fuel r []).map (fun p => (Json.arr p.1, p.2))
    | '{' :: r =>
      match (r.dropWhile jsonWs) with
      | '}' :: r2 => some (Json.obj [], r2)
      | _ => (parseObjItems fuel r []).map (fun p => (Json.obj p.1, p.2))
    | c :: r =>
      if c == '-' || c.isDigit then parseNum (c :: r) else none
    | [] => none

/-- Body of a string literal after the opening quote; decodes escapes. -/
def parseStrBody (fuel : Nat) (s : List Char) (acc : List Char) :
    Option (List Char × List Char) :=
  match fuel with
  | 0 => none
  | fuel + 1 =>
    match s with
    | [] => none
    | '"' :: r => some (acc.reverse, r)
    | '\\' :: e :: r =>
      match e with
      | '"' => parseStrBody fuel r ('"' :: acc)
      | '\\' => parseStrBody fuel r ('\\' :: acc)
      | '/' => parseStrBody fuel r ('/' :: acc)
      | 'b' => parseStrBody fuel r ('\x08' :: acc)
      | 'f' => parseStrBody fuel r ('\x0c' :: acc)
      | 'n' => parseStrBody fuel r ('\n' :: acc)
      | 'r' => parseStrBody fuel r ('\x0d' :: acc)
      | 't' => parseStrBody fuel r ('\t' :: acc)
      | 'u' =>
        match r with
        | a :: b :: c :: d :: r2 =>
          if isHexDig a && isHexDig b && isHexDig c && isHexDig d then
            let n := (hexVal a) * 4096 + (hexVal b) * 256 + (hexVal c) * 16 + hexVal d
            if n.isValidChar then parseStrBody fuel r2 (Char.ofNat n :: acc)
            else none
          else none
        | _ => none
      | _ => none
    | c :: r => if c.toNat < 32 then none else parseStrBody fuel r (c :: acc)

/-- Array elements after `[` (first element not yet consumed). -/
def parseArrItems (fuel : Nat) (s : List Char) (acc : List Json) :
    Option (List Json × List Char) :=
  match fuel with
  | 0 => none
  | fuel + 1 =>
    match parseVal fuel s with
    | none => none
    | some (v, r) =>
      match r.dropWhile jsonWs with
      | ',' :: r2 => parseArrItems fuel r2 (v :: acc)
      | ']' :: r2 => some ((v :: acc).reverse, r2)
      | _ => none

/-- Object members after `{` (first member not yet consumed). -/
def parseObjItems (fuel : Nat) (s : List Char) (acc : List (List Char × Json)) :
    Option (List (List Char × Json) × List Char) :=
  match fuel with
  | 0 => none
  | fuel + 1 =>
    match s.dropWhile jsonWs with
    | '"' :: r =>
      match parseStrBody fuel r [] with
      | none => none
      | some (k, r2) =>
        match r2.dropWhile jsonWs with
        | ':' :: r3 =>
          match parseVal fuel r3 with
          | none => none
          | some (v, r4) =>
            match r4.dropWhile jsonWs with
            | ',' :: r5 => parseObjItems fuel r5 ((k, v) :: acc)
            | '}' :: r5 => some (((k, v) :: acc).reverse, r5)
            | _ => none
        | _ => none
    | _ => none

end

/-- Python `json.loads`: parse one value, allow only whitespace around it. -/
def jsonLoads (s : List Char) : Option Json :=
  match parseVal (s.length + 1) s with
  | some (v, r) => if r.dropWhile jsonWs = [] then some v else none
  | none => none

/-! ### A small backtracking regex engine

Python's `re.search` is used by the source at several places with a fixed
set of patterns.  We embed those patterns as abstract syntax trees and run
them with Python's semantics: leftmost starting position wins; within a
position alternatives are tried left first, greedy repetition tries the
longer match first, lazy repetition the shorter.  Capturing groups record
the consumed substring.  A fuel argument bounds the recursion depth; it is
chosen generously relative to the input (see `reFuel`). -/

inductive RE where
  | eps : RE
  | ch : (Char → Bool) → RE
  | cat : RE → RE → RE
  | alt : RE → RE → RE
  | star : Bool → RE → RE
  | grp : RE → RE

/-- Literal character. -/
def rc (c : Char) : RE := RE.ch (· == c)

/-- Literal string. -/
def rlit (s : String) : RE :=
  s.data.foldr (fun c r => RE.cat (rc c) r) RE.eps

/-- Greedy `x?`. -/
def ropt (r : RE) : RE := RE.alt r RE.eps

/-- Greedy `x+`. -/
def rplus (r : RE) : RE := RE.cat r (RE.star true r)

/-- `x{2,3}` (greedy), as used by the vitals patterns. -/
def r23 (r : RE) : RE := RE.cat r (RE.cat r (ropt r))

/-- `\d`. -/
def rdig : RE := RE.ch Char.isDigit

/-- `\s` (ASCII portion, all the inputs exercised here are ASCII). -/
def rws : RE := RE.ch pyIsSpace

/-- `[:\s]`. -/
def rcolsp : RE := RE.ch (fun c => c == ':' || pyIsSpace c)

/-- The matcher.  `mat fuel r s caps k` tries to match `r` at the head of
`s`, extending the capture list `caps`, and calls the continuation `k`
with the rest of the input on success; backtracking is expressed by `<|>`
over `Option`.  A greedy star tries another iteration first, a lazy star
tries the continuation first; iterations must consume input, as in `re`. -/
def mat (fuel : Nat) (r : RE) (s : List Char) (caps : List (List Char))
    (k : List Char → List (List Char) → Option (List (List Char))) :
    Option (List (List Char)) :=
  match fuel with
  | 0 => none
  | fuel + 1 =>
    match r with
    | RE.eps => k s caps
    | RE.ch p =>
      match s with
      | [] => none
      | c :: rest => if p c then k rest caps else none
    | RE.cat a b => mat fuel a s caps (fun s2 caps2 => mat fuel b s2 caps2 k)
    | RE.alt a b => mat fuel a s caps k <|> mat fuel b s caps k
    | RE.star greedy a =>
      let go := mat fuel a s caps (fun s2 caps2 =>
        if s2.length < s.length then mat fuel (RE.star greedy a) s2 caps2 k else none)
      if greedy then go <|> k s caps else k s caps <|> go
    | RE.grp a =>
      mat fuel a s caps (fun s2 caps2 =>
        k s2 (caps2 ++ [s.take (s.length - s2.length)]))

/-- Fuel bound: ample for the fixed patterns of the source on any input. -/
def reFuel (s : List Char) : Nat := 200 * (s.length + 2) + 400

/-- Try to match `r` at the very start of `s`; on success return the
captured groups (in order of group completion, which for the source's
patterns is their syntactic order). -/
def matchHere (r : RE) (s : List Char) : Option (List (List Char)) :=
  mat (reFuel s) r s [] (fun _ caps => some caps)

/-- Python `re.search`: scan start positions left to right, first position
with a match wins. -/
def reSearch (r : RE) (s : List Char) : Option (List (List Char)) :=
  match matchHere r s with
  | some caps => some caps
  | none =>
    match s with
    | [] => none
    | _ :: t => reSearch r t

/-! ### `extract_vitals_regex` (src/backend/main.py lines 163-263)

Each Python pattern string is transliterated into an `RE` term, keeping
the pattern lists in source order. -/

/-- `(?:is\s+)?`. -/
def rIsOpt : RE := ropt (RE.cat (rlit "is") (rplus rws))

/-- `(?:of\s+)?`. -/
def rOfOpt : RE := ropt (RE.cat (rlit "of") (rplus rws))

/-- `[:\s]+`. -/
def rColsp1 : RE := rplus rcolsp

/-- `\s+`. -/
def rWs1 : RE := rplus rws

/-- `\s*`. -/
def rWs0 : RE := RE.star true rws

/-- `(\d{2,3})`. -/
def rG23 : RE := RE.grp (r23 rdig)

/-- `(\d{2}\.?\d?)` (temperature / weight number shape). -/
def rGnum : RE :=
  RE.grp (RE.cat rdig (RE.cat rdig (RE.cat (ropt (rc '.')) (ropt rdig))))

/-- `(\d{2,3}\.?\d?)` (weight number shape). -/
def rGwnum : RE :=
  RE.grp (RE.cat rdig (RE.cat rdig (RE.cat (ropt rdig) (RE.cat (ropt (rc '.')) (ropt rdig)))))

/-- `[\/\-]`. -/
def rSlashDash : RE := RE.ch (fun c => c == '/' || c == '-')

/-- Sequence of a list of regexes. -/
def rseq (l : List RE) : RE := l.foldr RE.cat RE.eps

/-- The five blood-pressure patterns, in source order. -/
def bpPats : List RE :=
  [ rseq [rlit "bp", rColsp1, rG23, rSlashDash, rG23]
  , rseq [rlit "blood", rWs1, rlit "pressure", rColsp1, rG23, rSlashDash, rG23]
  , rseq [rlit "pressure", rColsp1, rG23, rSlashDash, rG23]
  , rseq [rG23, rSlashDash, rG23, rWs0, RE.alt (rlit "mmhg") (rlit "bp")]
  , rseq [rG23, rWs0, rlit "over", rWs0, rG23] ]

/-- The three temperature patterns, in source order. -/
def tempPats : List RE :=
  [ rseq [rlit "temp", ropt (rlit "erature"), rColsp1, rGnum]
  , rseq [rGnum, rWs0, ropt (RE.alt (RE.cat (rlit "degree") (ropt (rc 's'))) (rc '°')),
          rWs0, RE.alt (rlit "celsius") (RE.alt (rc 'c') (rc 'f'))]
  , rseq [rGnum, rWs0, rlit "degree", ropt (rc 's')] ]

/-- The seven pulse patterns, in source order. -/
def pulsePats : List RE :=
  [ rseq [rlit "pulse", rColsp1, rIsOpt, rG23]
  , rseq [rlit "heart", rWs1, rlit "rate", rColsp1, rIsOpt, rG23]
  , rseq [rlit "hr", rColsp1, rIsOpt, rG23]
  , rseq [rG23, rWs0, rlit "bpm"]
  , rseq [rlit "pulse", rWs1, rOfOpt, rG23]
  , rseq [rlit "heart", rWs1, rlit "rate", rWs1, rOfOpt, rG23]
  , rseq [rG23, rWs0, ropt (rseq [rlit "beat", ropt (rc 's'), rWs1]),
          rlit "per", rWs1, rlit "minute"] ]

/-- The sixteen oxygen-saturation patterns, in source order. -/
def spo2Pats : List RE :=
  [ rseq [rlit "spo2", rColsp1, rIsOpt, rG23]
  , rseq [rlit "sp", rWs0, rc 'o', rWs0, rc '2', rColsp1, rIsOpt, rG23]
  , rseq [rc 's', rWs0, rc 'p', rWs0, rc 'o', rWs0, rc '2', rColsp1, rIsOpt, rG23]
  , rseq [rlit "spo", rWs0, rc '2', rColsp1, rIsOpt, rG23]
  , rseq [rlit "oxygen", rColsp1, RE.alt (rlit "saturation") (rlit "sat"), rColsp1, rIsOpt, rG23]
  , rseq [rlit "oxygen", rWs1, RE.alt (rlit "saturation") (rlit "sat"), rColsp1, rIsOpt, rG23]
  , rseq [rlit "saturation", rColsp1, rIsOpt, rG23]
  , rseq [rlit "oxygen", rWs1, rlit "level", rColsp1, rIsOpt, rG23]
  , rseq [rlit "o2", rColsp1, RE.alt (rlit "sat") (rlit "saturation"), rColsp1, rIsOpt, rG23]
  , rseq [rc 'o', rWs0, rc '2', rColsp1, RE.alt (rlit "sat") (rlit "saturation"), rColsp1, rIsOpt, rG23]
  , rseq [rlit "o2", rWs0, rlit "sat", rColsp1, rIsOpt, rG23]
  , rseq [rG23, rWs0, ropt (rc '%'), rWs0,
          RE.alt (rlit "oxygen") (RE.alt (rlit "o2") (RE.alt (rlit "spo2") (rlit "saturation")))]
  , rseq [rG23, rWs0, rlit "percent", rWs0,
          RE.alt (rlit "oxygen") (RE.alt (rlit "o2") (rlit "spo2"))]
  , rseq [rG23, rWs0, rc '%', rWs0,
          RE.alt (rlit "oxygen") (RE.alt (rlit "o2") (rlit "spo2"))]
  , rseq [rlit "oxygen", rColsp1, rIsOpt, rG23]
  , rseq [rlit "o2", rColsp1, rIsOpt, rG23] ]

/-- The three weight patterns, in source order. -/
def weightPats : List RE :=
  [ rseq [rlit "weight", rColsp1, rGwnum, rWs0,
          RE.alt (rlit "kg") (RE.alt (rseq [rlit "kilogram", ropt (rc 's')])
                                     (rseq [rlit "kilo", ropt (rc 's')]))]
  , rseq [rGwnum, rWs0,
          RE.alt (rlit "kg") (RE.alt (rseq [rlit "kilogram", ropt (rc 's')])
                                     (rseq [rlit "kilo", ropt (rc 's')]))]
  , rseq [rlit "weight", rColsp1, rGwnum] ]

/-- `for pattern in patterns: match = re.search(...); if match: ...; break`
— first pattern with a match wins. -/
def scanFirst (pats : List RE) (t : List Char) : Option (List (List Char)) :=
  match pats with
  | [] => none
  | p :: rest =>
    match reSearch p t with
    | some caps => some caps
    | none => scanFirst rest t

/-- The oxygen-saturation loop: a match is accepted only when its value is
in `70..100`; otherwise the loop moves on to the next pattern. -/
def spo2Scan (pats : List RE) (t : List Char) : Option (List Char) :=
  match pats with
  | [] => none
  | p :: rest =>
    match reSearch p t with
    | some caps =>
      let v := caps.headD []
      if 70 ≤ natOfDigits v ∧ natOfDigits v ≤ 100 then some v else spo2Scan rest t
    | none => spo2Scan rest t

/-- The canonical vitals record (all fields optional strings). -/
structure Vitals where
  bp : Option (List Char)
  temp : Option (List Char)
  pulse : Option (List Char)
  spo2 : Option (List Char)
  weight : Option (List Char)
deriving DecidableEq, Repr

/-- The all-`None` vitals record. -/
def allNullVitals : Vitals := ⟨none, none, none, none, none⟩

/-- `extract_vitals_regex` (main.py lines 163-263): lower-case the text,
then run each field's pattern list independently; blood pressure is
reassembled as `"g1/g2"`. -/
def extract_vitals_regex (text : List Char) : Vitals :=
  let tl := lowerChars text
  { bp := (scanFirst bpPats tl).map (fun caps => caps.headD [] ++ '/' :: (caps.getD 1 []))
  , temp := (scanFirst tempPats tl).map (fun caps => caps.headD [])
  , pulse := (scanFirst pulsePats tl).map (fun caps => caps.headD [])
  , spo2 := spo2Scan spo2Pats tl
  , weight := (scanFirst weightPats tl).map (fun caps => caps.headD []) }

/-! ### `_robust_json_extract` (main.py lines 96-127) -/

/-- Case-insensitive literal (the fence marker's optional `json` tag,
matched with `re.IGNORECASE`). -/
def rlitCI (s : String) : RE :=
  s.data.foldr (fun c r => RE.cat (RE.ch (fun x => x.toLower == c.toLower)) r) RE.eps

/-- The fenced-block pattern: three backticks, optional `json` tag,
whitespace, a lazily-matched brace span (the capture), whitespace, three
backticks. -/
def fenceRE : RE :=
  rseq [rlit (String.mk ['\x60', '\x60', '\x60']), ropt (rlitCI "json"), rWs0,
        RE.grp (rseq [rc '{', RE.star false (RE.ch (fun _ => true)), rc '}']),
        rWs0, rlit (String.mk ['\x60', '\x60', '\x60'])]

/-- Replace typographic quotation marks by straight ones, the
`candidate.replace(...)` chain of the source. -/
def replaceCurly (s : List Char) : List Char :=
  s.map (fun c =>
    if c == '“' || c == '”' then '"'
    else if c == '‘' || c == '’' then '\x27'
    else c)

/-- `re.sub(r",\s*([}\]])", r"\1", candidate)`: drop a comma (and the
whitespace after it) that immediately precedes a closing brace/bracket,
scanning left to right over non-overlapping matches. -/
def subTrailingCommas (fuel : Nat) (s : List Char) : List Char :=
  match fuel with
  | 0 => s
  | fuel + 1 =>
    match s with
    | [] => []
    | ',' :: rest =>
      match rest.dropWhile pyIsSpace with
      | '}' :: r2 => '}' :: subTrailingCommas fuel r2
      | ']' :: r2 => ']' :: subTrailingCommas fuel r2
      | _ => ',' :: subTrailingCommas fuel rest
    | c :: rest => c :: subTrailingCommas fuel rest

/-- `_robust_json_extract`: fenced block preferred, else the substring
from the first `{` to the last `}`; strip, straighten quotes, parse, and
on failure retry once with trailing commas removed.  `none` models every
raising path (`ValueError` and `json.JSONDecodeError`). -/
def robust_json_extract (text : List Char) : Option Json :=
  if text.isEmpty || (pyStrip text).isEmpty then none
  else
    let candidate? :=
      match reSearch fenceRE text with
      | some caps => some (caps.headD [])
      | none =>
        match strFind text '{', strRFind text '}' with
        | some st, some en =>
          if en ≤ st then none else some ((text.drop st).take (en + 1 - st))
        | _, _ => none
    match candidate? with
    | none => none
    | some cand0 =>
      let cand := replaceCurly (pyStrip cand0)
      match jsonLoads cand with
      | some v => some v
      | none => jsonLoads (subTrailingCommas cand.length cand)

/-! ### `_normalize_vitals` (main.py lines 133-160) -/

/-- `v is not None and v != ""`, the `obj[k] not in (None, "")` test. -/
def presentNonEmpty : Json → Bool
  | Json.null => false
  | Json.str s => !s.isEmpty
  | _ => true

/-- The inner `pick(*keys)` helper: first key present in the object with a
value that is neither `None` nor `""`. -/
def pick (keys : List (List Char)) (o : List (List Char × Json)) : Option Json :=
  match keys with
  | [] => none
  | k :: ks =>
    match jGet o k with
    | some v => if presentNonEmpty v then some v else pick ks o
    | none => pick ks o

/-- Python `str()` of a decoded JSON number.  Integer literals are already
canonical except `-0`; non-integer literals are kept verbatim (no claim
exercises a float whose `str` differs from its literal). -/
def pyStrOfNumLit (lit : List Char) : List Char :=
  if lit.all (fun c => c.isDigit || c == '-') then
    (if lit == ['-', '0'] then ['0'] else lit)
  else lit

/-- JSON string escaping as `json.dumps` with `ensure_ascii=False`. -/
def dumpsEscape (c : Char) : List Char :=
  if c == '"' then ['\\', '"']
  else if c == '\\' then ['\\', '\\']
  else if c == '\n' then ['\\', 'n']
  else if c == '\t' then ['\\', 't']
  else if c == '\x0d' then ['\\', 'r']
  else if c == '\x08' then ['\\', 'b']
  else if c == '\x0c' then ['\\', 'f']
  else if c.toNat < 32 then
    let hx := fun (n : Nat) => if n < 10 then Char.ofNat ('0'.toNat + n)
                               else Char.ofNat ('a'.toNat + n - 10)
    ['\\', 'u', '0', '0', hx (c.toNat / 16), hx (c.toNat % 16)]
  else [c]

mutual

/-- `json.dumps(v, ensure_ascii=False)` with the default separators
`", "` and `": "`; numbers are emitted as their literal text. -/
def pyDumps (v : Json) : List Char :=
  match v with
  | Json.null => ['n', 'u', 'l', 'l']
  | Json.bool b => if b then ['t', 'r', 'u', 'e'] else ['f', 'a', 'l', 's', 'e']
  | Json.num lit => lit
  | Json.str s => '"' :: (s.map dumpsEscape).flatten ++ ['"']
  | Json.arr l => '[' :: pyDumpsArr l ++ [']']
  | Json.obj o => '{' :: pyDumpsObj o ++ ['}']

/-- Comma-separated array elements for `pyDumps`. -/
def pyDumpsArr (l : List Json) : List Char :=
  match l with
  | [] => []
  | [x] => pyDumps x
  | x :: xs => pyDumps x ++ [',', ' '] ++ pyDumpsArr xs

/-- Comma-separated object members for `pyDumps`. -/
def pyDumpsObj (o : List (List Char × Json)) : List Char :=
  match o with
  | [] => []
  | [(k, v)] => '"' :: (k.map dumpsEscape).flatten ++ ['"', ':', ' '] ++ pyDumps v
  | (k, v) :: xs =>
    '"' :: (k.map dumpsEscape).flatten ++ ['"', ':', ' '] ++ pyDumps v ++ [',', ' ']
      ++ pyDumpsObj xs

end

/-- The value-coercion loop of `_normalize_vitals`: numbers (including
booleans, which are `int`s in Python) are stringified, strings stripped,
anything else serialized with `json.dumps`. -/
def coerceVital : Json → List Char
  | Json.num lit => pyStrOfNumLit lit
  | Json.bool b => if b then ['T', 'r', 'u', 'e'] else ['F', 'a', 'l', 's', 'e']
  | Json.str s => pyStrip s
  | v => pyDumps v

/-- Accepted alternate keys, in priority order (main.py lines 145-149). -/
def bpKeys : List (List Char) := ["bp".data, "blood_pressure".data, "bloodPressure".data]

/-- Temperature aliases. -/
def tempKeys : List (List Char) := ["temp".data, "temperature".data]

/-- Pulse aliases. -/
def pulseKeys : List (List Char) :=
  ["pulse".data, "hr".data, "heart_rate".data, "heartRate".data]

/-- Oxygen-saturation aliases. -/
def spo2Keys : List (List Char) :=
  ["spo2".data, "SpO2".data, "o2sat".data, "oxygen_saturation".data, "oxygenSaturation".data]

/-- Weight aliases. -/
def weightKeys : List (List Char) :=
  ["weight".data, "wt".data, "body_weight".data, "bodyWeight".data]

/-- `_normalize_vitals`: non-dict input yields the all-`None` record; each
canonical field takes the first present non-empty alias, coerced to a
string. -/
def normalize_vitals (j : Json) : Vitals :=
  match j with
  | Json.obj o =>
    { bp := (pick bpKeys o).map coerceVital
    , temp := (pick tempKeys o).map coerceVital
    , pulse := (pick pulseKeys o).map coerceVital
    , spo2 := (pick spo2Keys o).map coerceVital
    , weight := (pick weightKeys o).map coerceVital }
  | _ => allNullVitals

/-! ### `extract_vitals_hybrid` (main.py lines 323-355)

`extract_vitals_groq_api` is a network call returning a decoded dict,
`{}` on every failure path; we parameterize over the results of its two
potential invocations (`primary1` for the first call, `primary2` for the
gap-filling retry) and over whether `GROQ_API_KEY` is set. -/

/-- Truthiness of one normalized field (`None` and `""` are falsy). -/
def optTruthy : Option (List Char) → Bool
  | none => false
  | some s => !s.isEmpty

/-- `any(record.values())`. -/
def vitalsAny (v : Vitals) : Bool :=
  optTruthy v.bp || optTruthy v.temp || optTruthy v.pulse || optTruthy v.spo2
    || optTruthy v.weight

/-- One step of the gap-filling merge: a key is (re)assigned only when it
was missing from the regex record and the retry's value is truthy. -/
def fillIf (old new : Option (List Char)) : Option (List Char) :=
  match old with
  | some v => some v
  | none => if optTruthy new then new else none

/-- `extract_vitals_hybrid`: primary first (short-circuits on any truthy
field), regex fallback, then one primary retry filling only the fields the
regex left `None`. -/
def extract_vitals_hybrid (primary1 primary2 : List (List Char × Json))
    (hasGroqKey : Bool) (t : List Char) : Vitals :=
  let groqNorm := normalize_vitals (Json.obj primary1)
  if !primary1.isEmpty && vitalsAny groqNorm then groqNorm
  else
    let vr := extract_vitals_regex t
    let anyMissing := vr.bp.isNone || vr.temp.isNone || vr.pulse.isNone
      || vr.spo2.isNone || vr.weight.isNone
    if anyMissing && hasGroqKey && !primary2.isEmpty then
      let g2 := normalize_vitals (Json.obj primary2)
      { bp := fillIf vr.bp g2.bp
      , temp := fillIf vr.temp g2.temp
      , pulse := fillIf vr.pulse g2.pulse
      , spo2 := fillIf vr.spo2 g2.spo2
      , weight := fillIf vr.weight g2.weight }
    else vr

/-! ### Rationals from JSON numeric literals

Python floats are modelled by exact rationals; every numeric comparison a
claim makes is either between exactly-representable values or between
grossly different magnitudes, so the modelling is sound for them. -/

/-- Exact rational value of a JSON number literal, built with `mkRat` so
that it evaluates by kernel reduction. -/
def ratOfNumLit (lit : List Char) : ℚ :=
  let (neg, s1) : Bool × List Char := match lit with
    | '-' :: r => (true, r)
    | _ => (false, lit)
  let ip := s1.takeWhile Char.isDigit
  let r1 := s1.dropWhile Char.isDigit
  let (fd, r2) : List Char × List Char := match r1 with
    | '.' :: r => (r.takeWhile Char.isDigit, r.dropWhile Char.isDigit)
    | _ => ([], r1)
  let (exNeg, exMag) : Bool × Nat := match r2 with
    | 'e' :: '-' :: r => (true, natOfDigits (r.takeWhile Char.isDigit))
    | 'E' :: '-' :: r => (true, natOfDigits (r.takeWhile Char.isDigit))
    | 'e' :: '+' :: r => (false, natOfDigits (r.takeWhile Char.isDigit))
    | 'E' :: '+' :: r => (false, natOfDigits (r.takeWhile Char.isDigit))
    | 'e' :: r => (false, natOfDigits (r.takeWhile Char.isDigit))
    | 'E' :: r => (false, natOfDigits (r.takeWhile Char.isDigit))
    | _ => (false, 0)
  let mant : Nat := natOfDigits (ip ++ fd)
  let num : Int := if exNeg then (mant : Int) else (mant : Int) * (10 ^ exMag : Nat)
  let den : Nat := if exNeg then 10 ^ fd.length * 10 ^ exMag else 10 ^ fd.length
  mkRat (if neg then -num else num) den

/-- `float(...)` coercion of a decoded JSON value, as pydantic applies to
the `probability: float` field (booleans are Python ints; other
non-numeric values fail validation — no claim exercises string-encoded
numbers). -/
def floatOfJson : Json → Option ℚ
  | Json.num lit => some (ratOfNumLit lit)
  | Json.bool b => some (if b then 1 else 0)
  | _ => none

/-- A `str`-typed pydantic field: only decoded strings validate. -/
def strOfJson : Json → Option (List Char)
  | Json.str s => some s
  | _ => none

/-! ### `_get_groq_diagnosis` response parsing (main.py lines 813-851)

The Groq HTTP call is external; we embed the deterministic part, from the
model's `generated_text` to the returned list of diagnosis dicts. -/

/-- `r'\[[\s\S]*?\]'` wrapped in a group so the engine reports the whole
match (Python's `group(0)`). -/
def arrLazyRE : RE :=
  RE.grp (rseq [rc '[', RE.star false (RE.ch (fun _ => true)), rc ']'])

/-- `r'\{[\s\S]*?\}'` wrapped in a group (Python's `group(0)`). -/
def objLazyRE : RE :=
  RE.grp (rseq [rc '{', RE.star false (RE.ch (fun _ => true)), rc '}'])

/-- The ensure-required-fields loop body for one parsed element: missing
keys get defaults (`diagnosis` from `condition`, `probability` 0.7,
`reasoning` from `detailed_reasoning` or a fixed sentence,
`detailed_reasoning` from `reasoning`).  A non-dict element makes the
Python loop raise, which the enclosing handler turns into `[]`; that is
the `none` case. -/
def fixDiag (d : Json) : Option (List (List Char × Json)) :=
  match d with
  | Json.obj o =>
    let o1 := if jMem o "diagnosis".data then o
      else o ++ [("diagnosis".data, (jGet o "condition".data).getD (Json.str []))]
    let o2 := if jMem o1 "probability".data then o1
      else o1 ++ [("probability".data, Json.num "0.7".data)]
    let o3 := if jMem o2 "reasoning".data then o2
      else o2 ++ [("reasoning".data,
        (jGet o2 "detailed_reasoning".data).getD (Json.str "Based on symptom analysis.".data))]
    let o4 := if jMem o3 "detailed_reasoning".data then o3
      else o3 ++ [("detailed_reasoning".data, (jGet o3 "reasoning".data).getD (Json.str []))]
    some o4
  | _ => none

/-- Apply `fixDiag` to every element; any non-dict aborts the whole list. -/
def fixAll : List Json → Option (List (List (List Char × Json)))
  | [] => some []
  | d :: ds =>
    match fixDiag d, fixAll ds with
    | some o, some os => some (o :: os)
    | _, _ => none

/-- The single-object fallback branch of `_get_groq_diagnosis`. -/
def groqObjFallback (t : List Char) : List (List (List Char × Json)) :=
  match reSearch objLazyRE t with
  | some caps =>
    match jsonLoads (caps.headD []) with
    | some (Json.obj o) =>
      if jTruthy ((jGet o "diagnosis".data).getD Json.null) then
        let o2 := if jMem o "probability".data then o
          else o ++ [("probability".data, Json.num "0.7".data)]
        let o3 := if jMem o2 "reasoning".data then o2
          else o2 ++ [("reasoning".data,
            (jGet o2 "detailed_reasoning".data).getD (Json.str "Based on symptom analysis.".data))]
        let o4 := if jMem o3 "detailed_reasoning".data then o3
          else o3 ++ [("detailed_reasoning".data, (jGet o3 "reasoning".data).getD (Json.str []))]
        [o4]
      else []
    | _ => []
  | none => []

/-- `_get_groq_diagnosis` from the model's text: find a bracketed span,
parse it, ensure required fields, and keep the elements with a truthy
`diagnosis`; fall back to a single object when no non-empty array was
parsed; every raising path yields `[]`. -/
def groq_diagnosis_from_text (t : List Char) : List (List (List Char × Json)) :=
  match reSearch arrLazyRE t with
  | some caps =>
    match jsonLoads (caps.headD []) with
    | some (Json.arr ds) =>
      if !ds.isEmpty then
        match fixAll ds with
        | some fixed =>
          fixed.filter (fun o => jTruthy ((jGet o "diagnosis".data).getD Json.null))
        | none => []
      else groqObjFallback t
    | some _ => groqObjFallback t
    | none => []
  | none => groqObjFallback t

/-! ### The `/diagnose` and `/confirm-diagnosis` response loops
(main.py lines 1631-1646 and 1674-1687) -/

/-- `DiagnosisItem` of the response model. -/
structure DiagnosisItem where
  condition : List Char
  probability : ℚ
  reasoning : List Char
  detailed_reasoning : Option (List Char)
deriving DecidableEq, Repr

/-- `raw.get("condition") or raw.get("diagnosis", "")`. -/
def condOf (o : List (List Char × Json)) : Json :=
  let c := (jGet o "condition".data).getD Json.null
  if jTruthy c then c else (jGet o "diagnosis".data).getD (Json.str [])

/-- Build one `DiagnosisItem` from a raw dict: `some none` is the `continue`
for a falsy condition, `none` a pydantic validation failure. -/
def mkDiagItem (o : List (List Char × Json)) : Option (Option DiagnosisItem) :=
  let c := condOf o
  if !jTruthy c then some none
  else
    match strOfJson c with
    | none => none
    | some cs =>
      match floatOfJson ((jGet o "probability".data).getD (Json.num "0.5".data)) with
      | none => none
      | some p =>
        match strOfJson ((jGet o "reasoning".data).getD (Json.str [])) with
        | none => none
        | some rs =>
          match (jGet o "detailed_reasoning".data).getD Json.null with
          | Json.null => some (some ⟨cs, p, rs, none⟩)
          | Json.str ds => some (some ⟨cs, p, rs, some ds⟩)
          | _ => none

/-- The `/diagnose` conversion loop over the raw diagnosis dicts. -/
def diagnose_items : List (List (List Char × Json)) → Option (List DiagnosisItem)
  | [] => some []
  | o :: os =>
    match mkDiagItem o, diagnose_items os with
    | some none, some items => some items
    | some (some it), some items => some (it :: items)
    | _, _ => none

/-- The `/confirm-diagnosis` conversion loop: same skip-on-falsy-condition
filter, but the output entries are plain dicts. -/
def confirm_final (raws : List (List (List Char × Json))) :
    List (List (List Char × Json)) :=
  match raws with
  | [] => []
  | o :: os =>
    let c := condOf o
    if !jTruthy c then confirm_final os
    else
      [ ("condition".data, c)
      , ("probability".data, (jGet o "probability".data).getD (Json.num "0.5".data))
      , ("reasoning".data, (jGet o "reasoning".data).getD (Json.str []))
      , ("detailed_reasoning".data, (jGet o "detailed_reasoning".data).getD Json.null)
      ] :: confirm_final os

/-! ### The prescription engine (src/prescription_module/engine.py) -/

/-- A catalog entry.  The engine's defensive `isinstance` checks on tags
are subsumed by the typed field. -/
structure DrugRecord where
  id : List Char
  generic_name : List Char
  nhis_level : List Char
  formulation : List Char
  adult_dosage : List Char
  safety_warning : List Char
  indications_tags : List (List Char)
deriving DecidableEq, Repr

/-- `get_nhis_priority`: `{"A": 1, "B": 2, "C": 3}.get(level.upper(), 999)`. -/
def get_nhis_priority (d : DrugRecord) : Nat :=
  let lv := upperChars d.nhis_level
  if lv = "A".data then 1
  else if lv = "B".data then 2
  else if lv = "C".data then 3
  else 999

/-- Stable insertion of `x` after every element of no larger key. -/
def insStable (key : DrugRecord → Nat) (x : DrugRecord) :
    List DrugRecord → List DrugRecord
  | [] => [x]
  | y :: ys => if key y ≤ key x then y :: insStable key x ys else x :: y :: ys

/-- `matches.sort(key=get_nhis_priority)`: a stable sort by key, modelled
as left-to-right stable insertion. -/
def sortByKey (key : DrugRecord → Nat) (l : List DrugRecord) : List DrugRecord :=
  l.foldl (fun acc x => insStable key x acc) []

/-- One drug matches when some (lower-cased, stripped) indication tag
occurs inside the (lower-cased, stripped) diagnosis. -/
def drugMatches (diagLower : List Char) (d : DrugRecord) : Bool :=
  d.indications_tags.any (fun tag => isSubstr (pyStrip (lowerChars tag)) diagLower)

/-- `PrescriptionEngine.find_drugs_for` (engine.py lines 43-103): guard
empty input, lower-case and strip, collect each drug once on its first
matching tag, and stable-sort by NHIS priority. -/
def find_drugs_for (diagnosis : List Char) (database : List DrugRecord) :
    List DrugRecord :=
  if diagnosis.isEmpty then []
  else
    let dl := pyStrip (lowerChars diagnosis)
    if dl.isEmpty then []
    else sortByKey get_nhis_priority (database.filter (drugMatches dl))

/-! ### `get_ghana_suggestions` (src/prescription_module/interface.py) -/

/-- The six projected fields of one formatted match. -/
structure FormattedDrug where
  id : List Char
  generic_name : List Char
  nhis_level : List Char
  formulation : List Char
  adult_dosage : List Char
  safety_warning : List Char
deriving DecidableEq, Repr

/-- Projection applied to each matched drug. -/
def formatDrug (d : DrugRecord) : FormattedDrug :=
  ⟨d.id, d.generic_name, d.nhis_level, d.formulation, d.adult_dosage, d.safety_warning⟩

/-- The dictionary `get_ghana_suggestions` returns. -/
structure GhanaResult where
  status : List Char
  diagnosis : Json
  «matches» : List FormattedDrug
  count : Nat
  message : Option (List Char)

/-- The invalid-input / not-found result shapes. -/
def ghanaNotFound (diagEcho : Json) (msg : List Char) : GhanaResult :=
  ⟨"not_found".data, diagEcho, [], 0, some msg⟩

/-- `get_ghana_suggestions`, parameterized by the loaded catalog; the
input is a decoded value to cover the non-string cases the guard handles. -/
def get_ghana_suggestions (inp : Json) (database : List DrugRecord) : GhanaResult :=
  match inp with
  | Json.str s =>
    if s.isEmpty then ghanaNotFound (Json.str []) "Invalid diagnosis input".data
    else
      let ms := find_drugs_for s database
      if ms.isEmpty then ghanaNotFound (Json.str s) "No NHIS-compliant drug found".data
      else
        let formatted := ms.map formatDrug
        ⟨"success".data, Json.str s, formatted, formatted.length, none⟩
  | j =>
    ghanaNotFound (if jTruthy j then j else Json.str [])
      "Invalid diagnosis input".data

/-! ### Definitions written from the claims' wording, for comparison -/

/-- The match predicate exactly as the claim words it: some *lower-cased*
tag is a substring of the *lower-cased* diagnosis (no stripping).  Written
from the claim, for comparison against the source's `find_drugs_for`. -/
def claimTagMatch (diagnosis : List Char) (d : DrugRecord) : Bool :=
  d.indications_tags.any (fun tag => isSubstr (lowerChars tag) (lowerChars diagnosis))

/-- The priority exactly as the claim words it: `A`=1, `B`=2, `C`=3, any
other level 999 (no upper-casing).  Written from the claim. -/
def claimPriority (d : DrugRecord) : Nat :=
  if d.nhis_level = "A".data then 1
  else if d.nhis_level = "B".data then 2
  else if d.nhis_level = "C".data then 3
  else 999

/-- The whole match result as the claim words it. -/
def claimFindDrugs (diagnosis : List Char) (database : List DrugRecord) :
    List DrugRecord :=
  sortByKey claimPriority (database.filter (claimTagMatch diagnosis))

/-- A two-drug catalog separating the claim's wording from the code:
`dLowerA` has lower-case level `"a"` and a tag with trailing whitespace. -/
def dLowerA : DrugRecord :=
  ⟨"d1".data, "g1".data, "a".data, "f1".data, "a1".data, "w1".data, ["c ".data]⟩

/-- Second catalog entry, exactly matching level `"B"` and tag `"abc"`. -/
def dLevelB : DrugRecord :=
  ⟨"d2".data, "g2".data, "B".data, "f2".data, "a2".data, "w2".data, ["abc".data]⟩

/-- `extract_vitals_regex` with its oxygen-saturation pattern list
replaced, used to state that the other fields are computed independently
of the spo2 scan. -/
def extract_vitals_regex_spo2With (pats : List RE) (text : List Char) : Vitals :=
  let tl := lowerChars text
  { bp := (scanFirst bpPats tl).map (fun caps => caps.headD [] ++ '/' :: (caps.getD 1 []))
  , temp := (scanFirst tempPats tl).map (fun caps => caps.headD [])
  , pulse := (scanFirst pulsePats tl).map (fun caps => caps.headD [])
  , spo2 := spo2Scan pats tl
  , weight := (scanFirst weightPats tl).map (fun caps => caps.headD []) }

/-! ### Lemmas about the stable sort -/

theorem insStable_perm (key : DrugRecord → Nat) (x : DrugRecord) (l : List DrugRecord) :
    (insStable key x l).Perm (x :: l) := by
  induction l with
  | nil => simp [insStable]
  | cons y ys ih =>
    by_cases h : key y ≤ key x
    · simpa [insStable, h] using ((ih.cons y).trans (List.Perm.swap x y ys))
    · simp [insStable, h]

theorem sortByKey_perm (key : DrugRecord → Nat) (l : List DrugRecord) :
    (sortByKey key l).Perm l := by
  suffices h : ∀ acc : List DrugRecord,
      (List.foldl (fun acc x => insStable key x acc) acc l).Perm (acc ++ l) by
    simpa using h []
  induction l with
  | nil => simp
  | cons x xs ih =>
    intro acc
    refine (ih (insStable key x acc)).trans ?_
    have h1 : ((insStable key x acc) ++ xs).Perm ((x :: acc) ++ xs) :=
      (insStable_perm key x acc).append_right xs
    simpa using h1.trans List.perm_middle.symm

theorem insStable_sorted (key : DrugRecord → Nat) (x : DrugRecord)
    (l : List DrugRecord)
    (h : l.Pairwise (fun a b => key a ≤ key b)) :
    (insStable key x l).Pairwise (fun a b => key a ≤ key b) := by
  induction l with
  | nil => simp [insStable]
  | cons y ys ih =>
    rcases List.pairwise_cons.mp h with ⟨hy, hys⟩
    by_cases hle : key y ≤ key x
    · simp only [insStable, if_pos hle]
      refine List.pairwise_cons.mpr ⟨?_, ih hys⟩
      intro b hb
      have hb2 : b = x ∨ b ∈ ys := by
        have := (insStable_perm key x ys).mem_iff.mp hb
        simpa using this
      rcases hb2 with rfl | hb2
      · exact hle
      · exact hy b hb2
    · simp only [insStable, if_neg hle]
      have hxy : key x ≤ key y := le_of_lt (lt_of_not_le hle)
      refine List.pairwise_cons.mpr ⟨?_, h⟩
      intro b hb
      rcases List.mem_cons.mp hb with rfl | hb2
      · exact hxy
      · exact hxy.trans (hy b hb2)

theorem sortByKey_sorted (key : DrugRecord → Nat) (l : List DrugRecord) :
    (sortByKey key l).Pairwise (fun a b => key a ≤ key b) := by
  suffices h : ∀ acc : List DrugRecord, acc.Pairwise (fun a b => key a ≤ key b) →
      (List.foldl (fun acc x => insStable key x acc) acc l).Pairwise
        (fun a b => key a ≤ key b) by
    exact h [] (by simp)
  induction l with
  | nil => intro acc hacc; simpa using hacc
  | cons x xs ih =>
    intro acc hacc
    exact ih (insStable key x acc) (insStable_sorted key x acc hacc)

theorem insStable_filter (key : DrugRecord → Nat) (x : DrugRecord)
    (l : List DrugRecord) (p : Nat)
    (h : l.Pairwise (fun a b => key a ≤ key b)) :
    (insStable key x l).filter (fun d => key d == p)
      = if key x = p then l.filter (fun d => key d == p) ++ [x]
        else l.filter (fun d => key d == p) := by
  induction l with
  | nil =>
    by_cases hx : key x = p <;>
      simp [insStable, List.filter_cons, hx]
  | cons y ys ih =>
    rcases List.pairwise_cons.mp h with ⟨hy, hys⟩
    by_cases hle : key y ≤ key x
    · have e1 : insStable key x (y :: ys) = y :: insStable key x ys := by
        simp [insStable, hle]
      have ihs := ih hys
      rw [e1, List.filter_cons, ihs]
      by_cases hx : key x = p <;> by_cases hyp : key y = p <;>
        simp [List.filter_cons, hx, hyp]
    · have hlt : key x < key y := lt_of_not_le hle
      have e2 : insStable key x (y :: ys) = x :: y :: ys := by
        simp [insStable, hle]
      rw [e2]
      by_cases hx : key x = p
      · have hnil : (y :: ys).filter (fun d => key d == p) = [] := by
          refine List.filter_eq_nil_iff.mpr ?_
          intro b hb
          have hkb : key y ≤ key b := by
            rcases List.mem_cons.mp hb with rfl | hb2
            · exact le_refl _
            · exact hy b hb2
          have hpb : p < key b := hx ▸ lt_of_lt_of_le hlt hkb
          simp [Nat.ne_of_gt hpb]
        rw [List.filter_cons, hnil]
        simp [hx]
      · rw [List.filter_cons]
        simp [hx]

theorem sortByKey_filter (key : DrugRecord → Nat) (l : List DrugRecord) (p : Nat) :
    (sortByKey key l).filter (fun d => key d == p) = l.filter (fun d => key d == p) := by
  suffices h : ∀ acc : List DrugRecord, acc.Pairwise (fun a b => key a ≤ key b) →
      (List.foldl (fun acc x => insStable key x acc) acc l).filter (fun d => key d == p)
        = acc.filter (fun d => key d == p) ++ l.filter (fun d => key d == p) by
    simpa using h [] (by simp)
  induction l with
  | nil => intro acc hacc; simp
  | cons x xs ih =>
    intro acc hacc
    have step := ih (insStable key x acc) (insStable_sorted key x acc hacc)
    rw [List.foldl_cons, step, insStable_filter key x acc p hacc]
    by_cases hx : key x = p <;> simp [List.filter_cons, hx]

/-! ### Lemmas for the extractor on fenceless text -/

theorem fence_mat_none (fuel : Nat) (s : List Char) (caps : List (List Char))
    (k : List Char → List (List Char) → Option (List (List Char)))
    (h : s.head? ≠ some '\x60') : mat fuel fenceRE s caps k = none := by
  match fuel with
  | 0 => rfl
  | 1 => rfl
  | 2 => rfl
  | (n + 3) =>
    cases s with
    | nil => rfl
    | cons c r =>
      have hc : (c == '\x60') = false := by
        cases hh : c == '\x60'
        · rfl
        · exact absurd (by simpa using (beq_iff_eq.mp hh)) (by simpa using h)
      simp [mat, fenceRE, rseq, rlit, rc, hc]

theorem reSearch_fence_none (s : List Char) (h : '\x60' ∉ s) :
    reSearch fenceRE s = none := by
  induction s with
  | nil =>
    have h0 : matchHere fenceRE [] = none :=
      fence_mat_none _ _ _ _ (by simp)
    simp [reSearch, h0]
  | cons c t ih =>
    have hc : c ≠ '\x60' := fun e => h (e ▸ List.mem_cons_self c t)
    have ht : '\x60' ∉ t := fun e => h (List.mem_cons_of_mem c e)
    have h0 : matchHere fenceRE (c :: t) = none :=
      fence_mat_none _ _ _ _ (by simp [hc])
    simp [reSearch, h0, ih ht]

theorem dropWhile_eq_self_of_head (p : Char → Bool) (l : List Char)
    (h : ∀ c, l.head? = some c → p c = false) : l.dropWhile p = l := by
  cases l with
  | nil => rfl
  | cons a t => simp [List.dropWhile_cons, h a rfl]

theorem pyStrip_of_head_last (s : List Char)
    (hh : ∀ c, s.head? = some c → pyIsSpace c = false)
    (hl : ∀ c, s.getLast? = some c → pyIsSpace c = false) : pyStrip s = s := by
  unfold pyStrip
  rw [dropWhile_eq_self_of_head _ _ hh]
  rw [dropWhile_eq_self_of_head _ _ (by simpa using hl)]
  exact s.reverse_reverse

theorem pyStrip_ne_nil_of_mem (s : List Char) (c : Char) (hc : c ∈ s)
    (hns : pyIsSpace c = false) : (pyStrip s).isEmpty = false := by
  rw [List.isEmpty_eq_false]
  intro he
  unfold pyStrip at he
  have h1 : (s.dropWhile pyIsSpace).reverse.dropWhile pyIsSpace = [] := by
    simpa using congrArg List.reverse he
  have h2 : ∀ x ∈ s.dropWhile pyIsSpace, pyIsSpace x = true := by
    intro x hx
    exact List.dropWhile_eq_nil_iff.mp h1 x (List.mem_reverse.mpr hx)
  have h3 : ∀ x ∈ s, pyIsSpace x = true := by
    intro x hx
    rw [← List.takeWhile_append_dropWhile (p := pyIsSpace) (l := s)] at hx
    rcases List.mem_append.mp hx with hx1 | hx2
    · exact List.mem_takeWhile_imp hx1
    · exact h2 x hx2
  rw [h3 c hc] at hns
  cases hns

/-- C4 (amended): for every well-formed JSON object embedded in
surrounding prose, *provided* the text has no backtick, no `{` occurs
before the object, no `}` occurs after it, and the object has no
typographic quotes, `_robust_json_extract` recovers exactly the value of
parsing the embedded object text directly.  (Unconditionally the claim is
false: see the counterexample, where a stray `}` in the trailing prose
defeats the first-`{`-to-last-`}` candidate selection.) -/
theorem C4_thm (pre obj post : List Char) (v : Json)
    (htick : '\x60' ∉ pre ++ obj ++ post)
    (hpre : '{' ∉ pre)
    (hpost : '}' ∉ post)
    (hhead : obj.head? = some '{')
    (hlast : obj.getLast? = some '}')
    (hlen : 2 ≤ obj.length)
    (hquote : ∀ c ∈ obj, c ≠ '“' ∧ c ≠ '”' ∧ c ≠ '‘' ∧ c ≠ '’')
    (hparse : jsonLoads obj = some v) :
    robust_json_extract (pre ++ obj ++ post) = some v := by
  have hobjne : obj ≠ [] := by
    intro e; rw [e] at hhead; cases hhead
  have hmem : '{' ∈ pre ++ obj ++ post := by
    have : '{' ∈ obj := by
      cases obj with
      | nil => cases hhead
      | cons a t =>
        have : a = '{' := by simpa using hhead
        simp [this]
    simp [this]
  have hA : (pre ++ obj ++ post).isEmpty = false := by
    rw [List.isEmpty_eq_false]
    simp [hobjne]
  have hB : (pyStrip (pre ++ obj ++ post)).isEmpty = false :=
    pyStrip_ne_nil_of_mem _ '{' hmem (by decide)
  have hC : reSearch fenceRE (pre ++ obj ++ post) = none :=
    reSearch_fence_none _ htick
  have hprenone : pre.findIdx? (· == '{') = none := by
    refine List.findIdx?_eq_none_iff.mpr ?_
    intro x hx
    exact beq_eq_false_iff_ne.mpr (fun e => hpre (e ▸ hx))
  have hpostnone : post.reverse.findIdx? (· == '}') = none := by
    refine List.findIdx?_eq_none_iff.mpr ?_
    intro x hx
    exact beq_eq_false_iff_ne.mpr (fun e => hpost (e ▸ List.mem_reverse.mp hx))
  obtain ⟨t, rfl⟩ : ∃ t, obj = '{' :: t := by
    cases obj with
    | nil => cases hhead
    | cons a t =>
      have ha : a = '{' := by simpa using hhead
      exact ⟨t, by rw [ha]⟩
  obtain ⟨u, hu⟩ : ∃ u, ('{' :: t).reverse = '}' :: u := by
    have hh : ('{' :: t).reverse.head? = some '}' := by
      rw [List.head?_reverse]; exact hlast
    cases hrev : ('{' :: t).reverse with
    | nil => rw [hrev] at hh; cases hh
    | cons a u =>
      have ha : a = '}' := by rw [hrev] at hh; simpa using hh
      exact ⟨u, by rw [ha]⟩
  have hD : strFind (pre ++ ('{' :: t) ++ post) '{' = some pre.length := by
    unfold strFind
    rw [List.append_assoc, List.findIdx?_append, hprenone]
    simp
  have hE : strRFind (pre ++ ('{' :: t) ++ post) '}'
      = some (pre.length + ('{' :: t).length - 1) := by
    unfold strRFind
    have hrev : (pre ++ ('{' :: t) ++ post).reverse
        = post.reverse ++ (('{' :: t).reverse ++ pre.reverse) := by
      simp
    rw [hrev, List.findIdx?_append, hpostnone, hu]
    simp only [Option.none_or, List.findIdx?_cons]
    norm_num
    omega
  -- now evaluate the extractor
  have hcond : ((pre ++ ('{' :: t) ++ post).isEmpty
      || (pyStrip (pre ++ ('{' :: t) ++ post)).isEmpty) = false := by
    rw [hA, hB]; rfl
  unfold robust_json_extract
  rw [hcond]
  simp only [Bool.false_eq_true, if_false]
  rw [hC, hD, hE]
  have hno : ¬ (pre.length + ('{' :: t).length - 1 ≤ pre.length) := by
    simp only [List.length_cons] at hlen ⊢
    omega
  simp only [if_neg hno]
  have hdrop : (pre ++ ('{' :: t) ++ post).drop pre.length = ('{' :: t) ++ post := by
    rw [List.append_assoc]
    exact List.drop_left pre _
  have harith : pre.length + ('{' :: t).length - 1 + 1 - pre.length = ('{' :: t).length := by
    simp only [List.length_cons]
    omega
  rw [hdrop, harith, List.take_left]
  have hstrip : pyStrip ('{' :: t) = '{' :: t := by
    refine pyStrip_of_head_last _ ?_ ?_
    · intro c e
      have hc2 : '{' = c := by simpa using e
      rw [← hc2]; rfl
    · intro c e
      rw [hlast] at e
      have hc2 : '}' = c := Option.some.inj e
      rw [← hc2]; rfl
  have hcurly : replaceCurly ('{' :: t) = '{' :: t := by
    unfold replaceCurly
    have : ∀ c ∈ ('{' :: t), (if c == '“' || c == '”' then '"'
        else if c == '‘' || c == '’' then '\x27' else c) = c := by
      intro c hcmem
      rcases hquote c hcmem with ⟨h1, h2, h3, h4⟩
      simp [h1, h2, h3, h4]
    rw [List.map_congr_left this]
    simp
  rw [hstrip, hcurly, hparse]

/-- C4 counterexample: the claim quantifies over *arbitrary* surrounding
prose, but a `}` occurring in the prose after the object moves the
last-`}` endpoint, the widened candidate fails to parse, and the
extractor raises instead of recovering the (directly parseable) object. -/
theorem C4_counterexample :
    jsonLoads "\x7b\"a\": 1\x7d".data
        = some (Json.obj [("a".data, Json.num "1".data)])
      ∧ robust_json_extract "prose \x7b\"a\": 1\x7d tail\x7d".data = none := by
  constructor
  · rfl
  · rfl

/-- C4 witness: the amended theorem applied at concrete prose. -/
theorem C4_witness :
    robust_json_extract ("see ".data ++ "\x7b\"a\": 1\x7d".data ++ " end.".data)
      = some (Json.obj [("a".data, Json.num "1".data)]) :=
  C4_thm "see ".data "\x7b\"a\": 1\x7d".data " end.".data _
    (by decide) (by decide) (by decide) (by decide) (by decide) (by decide)
    (by decide) (by rfl)

/-- C3 (amended): the structured-value extractor has no truncated-array
salvage path.  On the truncated-array input it selects the substring from
the first `{` (index 1) to the last `}` (index 15), i.e. the non-JSON text
`{"a":1},{"b":2}`, which fails to parse even after trailing-comma removal,
so the extractor raises (`none`) instead of salvaging. -/
theorem C3_thm :
    strFind "[\x7b\"a\":1\x7d,\x7b\"b\":2\x7d".data '{' = some 1
      ∧ strRFind "[\x7b\"a\":1\x7d,\x7b\"b\":2\x7d".data '}' = some 15
      ∧ robust_json_extract "[\x7b\"a\":1\x7d,\x7b\"b\":2\x7d".data = none := by
  refine ⟨rfl, rfl, rfl⟩

/-- C3 counterexample: the claim asserts the salvage succeeds with the
array `[{"a":1},{"b":2}]` (shown here to be the direct parse of the
repaired text), but the extractor yields no value at all on the truncated
input. -/
theorem C3_counterexample :
    jsonLoads "[\x7b\"a\":1\x7d,\x7b\"b\":2\x7d]".data
        = some (Json.arr [Json.obj [("a".data, Json.num "1".data)],
                          Json.obj [("b".data, Json.num "2".data)]])
      ∧ robust_json_extract "[\x7b\"a\":1\x7d,\x7b\"b\":2\x7d".data ≠
          some (Json.arr [Json.obj [("a".data, Json.num "1".data)],
                          Json.obj [("b".data, Json.num "2".data)]]) := by
  constructor
  · rfl
  · intro h
    have h2 : (none : Option Json)
        = some (Json.arr [Json.obj [("a".data, Json.num "1".data)],
                          Json.obj [("b".data, Json.num "2".data)]]) := by
      rw [← h]; rfl
    cases h2

/-! ### C6: the keyword match engine -/

/-- C6 counterexample: the engine strips tags (`"c "` matches `"abc"`)
and upper-cases levels (`"a"` ranks as priority 1), so on this catalog it
returns `[dLowerA, dLevelB]` while the claim's wording (no strip, `"a"`
ranked 999) yields `[dLevelB]`. -/
theorem C6_counterexample :
    find_drugs_for "abc".data [dLowerA, dLevelB] = [dLowerA, dLevelB]
      ∧ claimFindDrugs "abc".data [dLowerA, dLevelB] = [dLevelB]
      ∧ find_drugs_for "abc".data [dLowerA, dLevelB]
          ≠ claimFindDrugs "abc".data [dLowerA, dLevelB] := by
  refine ⟨by decide, by decide, by decide⟩

/-- C6 (amended): for a diagnosis that is non-empty after lower-casing and
stripping, the engine's result is characterized by: (a) per-priority-level
stability — the result restricted to any priority value equals the
filtered catalog (in catalog order) restricted to it, where matching uses
*stripped* lower-cased tags against the *stripped* lower-cased diagnosis
and priority upper-cases the NHIS level; (b) the result is sorted by
ascending priority; (c) each drug occurs exactly as often as it does among
the catalog's matches (once for a duplicate-free catalog), regardless of
how many of its tags match. -/
theorem C6_thm (diagnosis : List Char) (database : List DrugRecord)
    (hne : diagnosis.isEmpty = false)
    (hstrip : (pyStrip (lowerChars diagnosis)).isEmpty = false) :
    (∀ p : Nat,
        (find_drugs_for diagnosis database).filter (fun d => get_nhis_priority d == p)
          = (database.filter (drugMatches (pyStrip (lowerChars diagnosis)))).filter
              (fun d => get_nhis_priority d == p))
      ∧ (find_drugs_for diagnosis database).Pairwise
          (fun a b => get_nhis_priority a ≤ get_nhis_priority b)
      ∧ (∀ d : DrugRecord,
          (find_drugs_for diagnosis database).count d
            = (database.filter (drugMatches (pyStrip (lowerChars diagnosis)))).count d) := by
  have he : find_drugs_for diagnosis database
      = sortByKey get_nhis_priority
          (database.filter (drugMatches (pyStrip (lowerChars diagnosis)))) := by
    unfold find_drugs_for
    simp only [hne, hstrip, Bool.false_eq_true, if_false]
  refine ⟨?_, ?_, ?_⟩
  · intro p
    rw [he]
    exact sortByKey_filter get_nhis_priority _ p
  · rw [he]
    exact sortByKey_sorted get_nhis_priority _
  · intro d
    rw [he]
    exact (sortByKey_perm get_nhis_priority _).count_eq d

/-- C6 witness: the amended theorem applied to the concrete catalog above
with the diagnosis `"abc"`, giving sortedness of the engine's output. -/
theorem C6_witness :
    (find_drugs_for "abc".data [dLowerA, dLevelB]).Pairwise
      (fun a b => get_nhis_priority a ≤ get_nhis_priority b) :=
  (C6_thm "abc".data [dLowerA, dLevelB] (by rfl) (by rfl)).2.1

/-- The two status strings are distinct. -/
theorem ghana_status_ne : "not_found".data = "success".data → False := by decide

/-- C10: `get_ghana_suggestions` is total (the embedding is a function),
`count` always equals the length of `matches`, `status` is `"success"`
exactly when `matches` is non-empty (`"not_found"` otherwise, the only
two statuses), and empty or non-string input always yields the
`not_found` result with no matches. -/
theorem C10_thm (inp : Json) (database : List DrugRecord) :
    (get_ghana_suggestions inp database).count
        = (get_ghana_suggestions inp database).«matches».length
      ∧ ((get_ghana_suggestions inp database).status = "success".data
          ↔ (get_ghana_suggestions inp database).«matches» ≠ [])
      ∧ ((inp = Json.str [] ∨ ∀ s, inp ≠ Json.str s) →
          (get_ghana_suggestions inp database).status = "not_found".data
            ∧ (get_ghana_suggestions inp database).«matches» = []) := by
  have hnf : ∀ (e : Json) (msg : List Char),
      (ghanaNotFound e msg).count = (ghanaNotFound e msg).«matches».length
        ∧ ((ghanaNotFound e msg).status = "success".data
            ↔ (ghanaNotFound e msg).«matches» ≠ [])
        ∧ ((ghanaNotFound e msg).status = "not_found".data
            ∧ (ghanaNotFound e msg).«matches» = []) :=
    fun e msg =>
      ⟨rfl, ⟨fun h => absurd h (fun hh => ghana_status_ne hh),
        fun h => absurd rfl h⟩, rfl, rfl⟩
  cases inp with
  | str s =>
    by_cases hs : s.isEmpty
    · have he : s = [] := List.isEmpty_iff.mp hs
      subst he
      exact ⟨(hnf _ _).1, (hnf _ _).2.1, fun _ => (hnf _ _).2.2⟩
    · have hs' : s.isEmpty = false := by simpa using hs
      by_cases hm : (find_drugs_for s database).isEmpty
      · have hg : get_ghana_suggestions (Json.str s) database
            = ghanaNotFound (Json.str s) "No NHIS-compliant drug found".data := by
          simp only [get_ghana_suggestions, hs', Bool.false_eq_true, if_false, hm,
            if_true]
        rw [hg]
        exact ⟨(hnf _ _).1, (hnf _ _).2.1, fun _ => (hnf _ _).2.2⟩
      · have hm' : (find_drugs_for s database).isEmpty = false := by simpa using hm
        have hg : get_ghana_suggestions (Json.str s) database
            = ⟨"success".data, Json.str s,
                (find_drugs_for s database).map formatDrug,
                ((find_drugs_for s database).map formatDrug).length, none⟩ := by
          simp only [get_ghana_suggestions, hs', hm', Bool.false_eq_true, if_false]
        rw [hg]
        refine ⟨rfl, ⟨fun _ => ?_, fun _ => rfl⟩, ?_⟩
        · have hne : find_drugs_for s database ≠ [] := by simpa using hm
          simpa using hne
        · intro hin
          exfalso
          rcases hin with h1 | h2
          · injection h1 with h1'
            rw [h1'] at hs'
            simp at hs'
          · exact (h2 s) rfl
  | null => exact ⟨(hnf _ _).1, (hnf _ _).2.1, fun _ => (hnf _ _).2.2⟩
  | bool b => exact ⟨(hnf _ _).1, (hnf _ _).2.1, fun _ => (hnf _ _).2.2⟩
  | num n => exact ⟨(hnf _ _).1, (hnf _ _).2.1, fun _ => (hnf _ _).2.2⟩
  | arr l => exact ⟨(hnf _ _).1, (hnf _ _).2.1, fun _ => (hnf _ _).2.2⟩
  | obj o => exact ⟨(hnf _ _).1, (hnf _ _).2.1, fun _ => (hnf _ _).2.2⟩

/-- C10 witness: non-string input yields `not_found` with no matches. -/
theorem C10_witness :
    (get_ghana_suggestions (Json.num "5".data) []).status = "not_found".data
      ∧ (get_ghana_suggestions (Json.num "5".data) []).«matches» = [] :=
  (C10_thm (Json.num "5".data) []).2.2 (Or.inr (fun _ h => Json.noConfusion h))

/-- C9: the vitals extraction operation is total by construction, and when
the primary model strategy yields nothing on both its invocations the
hybrid extractor returns exactly the regex record — in particular the
all-null record, not an error, when the regex also finds nothing. -/
theorem C9_thm (t : List Char) (hasKey : Bool) :
    extract_vitals_hybrid [] [] hasKey t = extract_vitals_regex t
      ∧ (extract_vitals_regex t = allNullVitals →
          extract_vitals_hybrid [] [] hasKey t = allNullVitals) := by
  have h1 : extract_vitals_hybrid [] [] hasKey t = extract_vitals_regex t := by
    simp [extract_vitals_hybrid]
  exact ⟨h1, fun h => h1.trans h⟩

/-- C9 witness: on the empty transcript with both model calls empty, the
result is the all-null record. -/
theorem C9_witness :
    extract_vitals_hybrid [] [] true "".data = allNullVitals :=
  (C9_thm "".data true).2 (by rfl)

/-- C7: (a) an spo2 pattern match whose captured value lies outside
70..100 is treated as not-a-match and the scan moves to the next pattern;
(b) `"spo2 of 45"` yields the all-null record, in particular `spo2 =
None`; (c) the four other fields never depend on the spo2 scan: replacing
the spo2 pattern list arbitrarily leaves them unchanged. -/
theorem C7_thm :
    (∀ (p : RE) (rest : List RE) (t : List Char) (caps : List (List Char)),
        reSearch p t = some caps →
        (70 ≤ natOfDigits (caps.headD []) ∧ natOfDigits (caps.headD []) ≤ 100 → False) →
        spo2Scan (p :: rest) t = spo2Scan rest t)
      ∧ extract_vitals_regex "spo2 of 45".data = allNullVitals
      ∧ (∀ (pats : List RE) (t : List Char),
          (extract_vitals_regex_spo2With pats t).bp = (extract_vitals_regex t).bp
            ∧ (extract_vitals_regex_spo2With pats t).temp = (extract_vitals_regex t).temp
            ∧ (extract_vitals_regex_spo2With pats t).pulse = (extract_vitals_regex t).pulse
            ∧ (extract_vitals_regex_spo2With pats t).weight
                = (extract_vitals_regex t).weight) := by
  refine ⟨?_, by decide, fun pats t => ⟨rfl, rfl, rfl, rfl⟩⟩
  intro p rest t caps hsearch hcond
  unfold spo2Scan
  rw [hsearch]
  simp only [if_neg hcond]
  conv_lhs => rw [spo2Scan.eq_def]

/-- C7 witness: the first spo2 pattern does match `"spo2: 45"` (capturing
`45`), the out-of-range value is rejected, and the scan continues with the
remaining patterns. -/
theorem C7_witness :
    spo2Scan (spo2Pats.headD RE.eps :: spo2Pats.tail) "spo2: 45".data
      = spo2Scan spo2Pats.tail "spo2: 45".data :=
  C7_thm.1 (spo2Pats.headD RE.eps) spo2Pats.tail "spo2: 45".data ["45".data]
    (by rfl) (by decide)

/-- Short-circuit case of the hybrid extractor: a first model call with a
truthy field is returned wholesale. -/
theorem hybrid_shortcircuit (p1 p2 : List (List Char × Json)) (hasKey : Bool)
    (t : List Char)
    (h : (!p1.isEmpty && vitalsAny (normalize_vitals (Json.obj p1))) = true) :
    extract_vitals_hybrid p1 p2 hasKey t = normalize_vitals (Json.obj p1) := by
  simp only [extract_vitals_hybrid, h, if_true]

/-- Merge case of the hybrid extractor: regex record gap-filled from the
retry result. -/
theorem hybrid_else_merge (p1 p2 : List (List Char × Json)) (hasKey : Bool)
    (t : List Char)
    (h : (!p1.isEmpty && vitalsAny (normalize_vitals (Json.obj p1))) = false)
    (hm : (((extract_vitals_regex t).bp.isNone
          || (extract_vitals_regex t).temp.isNone
          || (extract_vitals_regex t).pulse.isNone
          || (extract_vitals_regex t).spo2.isNone
          || (extract_vitals_regex t).weight.isNone)
        && hasKey && !p2.isEmpty) = true) :
    extract_vitals_hybrid p1 p2 hasKey t
      = { bp := fillIf (extract_vitals_regex t).bp (normalize_vitals (Json.obj p2)).bp
        , temp := fillIf (extract_vitals_regex t).temp (normalize_vitals (Json.obj p2)).temp
        , pulse := fillIf (extract_vitals_regex t).pulse (normalize_vitals (Json.obj p2)).pulse
        , spo2 := fillIf (extract_vitals_regex t).spo2 (normalize_vitals (Json.obj p2)).spo2
        , weight := fillIf (extract_vitals_regex t).weight
            (normalize_vitals (Json.obj p2)).weight } := by
  simp only [extract_vitals_hybrid, h, Bool.false_eq_true, if_false, hm, if_true]

/-- Fallback-only case of the hybrid extractor: the regex record is
returned unchanged. -/
theorem hybrid_else_nomerge (p1 p2 : List (List Char × Json)) (hasKey : Bool)
    (t : List Char)
    (h : (!p1.isEmpty && vitalsAny (normalize_vitals (Json.obj p1))) = false)
    (hm : (((extract_vitals_regex t).bp.isNone
          || (extract_vitals_regex t).temp.isNone
          || (extract_vitals_regex t).pulse.isNone
          || (extract_vitals_regex t).spo2.isNone
          || (extract_vitals_regex t).weight.isNone)
        && hasKey && !p2.isEmpty) = false) :
    extract_vitals_hybrid p1 p2 hasKey t = extract_vitals_regex t := by
  simp only [extract_vitals_hybrid, h, Bool.false_eq_true, if_false, hm]

/-- Filling a present field keeps it. -/
theorem fillIf_some (v : List Char) (y : Option (List Char)) :
    fillIf (some v) y = some v := rfl

/-- Filling a missing field yields nothing or the retry's value. -/
theorem fillIf_none_cases (y : Option (List Char)) :
    fillIf none y = none ∨ fillIf none y = y := by
  unfold fillIf
  by_cases h : optTruthy y = true
  · right; simp [h]
  · left; simp [h]

/-- C1 (amended): the orchestrator does not merge the claimed way.  When
the primary's first record has at least one truthy field it is returned
wholesale (the regex fallback is never consulted, so its fields cannot
win).  Only when the primary's first record has no truthy field does the
regex run; then a field the regex filled is never overwritten, and a field
the regex left null is either left null or taken from the *retry* call's
normalized record — i.e. in the merge it is the fallback's fields that
always win, the primary only fills gaps. -/
theorem C1_thm (p1 p2 : List (List Char × Json)) (hasKey : Bool) (t : List Char) :
    ((!p1.isEmpty && vitalsAny (normalize_vitals (Json.obj p1))) = true →
        extract_vitals_hybrid p1 p2 hasKey t = normalize_vitals (Json.obj p1))
      ∧ ((!p1.isEmpty && vitalsAny (normalize_vitals (Json.obj p1))) = false →
          ∀ acc ∈ ([Vitals.bp, Vitals.temp, Vitals.pulse, Vitals.spo2, Vitals.weight] :
              List (Vitals → Option (List Char))),
            ((acc (extract_vitals_regex t)).isSome = true →
                acc (extract_vitals_hybrid p1 p2 hasKey t) = acc (extract_vitals_regex t))
              ∧ (acc (extract_vitals_regex t) = none →
                  acc (extract_vitals_hybrid p1 p2 hasKey t) = none
                    ∨ acc (extract_vitals_hybrid p1 p2 hasKey t)
                        = acc (normalize_vitals (Json.obj p2)))) := by
  constructor
  · exact hybrid_shortcircuit p1 p2 hasKey t
  · intro h acc hacc
    cases hm : (((extract_vitals_regex t).bp.isNone
          || (extract_vitals_regex t).temp.isNone
          || (extract_vitals_regex t).pulse.isNone
          || (extract_vitals_regex t).spo2.isNone
          || (extract_vitals_regex t).weight.isNone)
        && hasKey && !p2.isEmpty) with
    | false =>
      have hr := hybrid_else_nomerge p1 p2 hasKey t h hm
      constructor
      · intro _; rw [hr]
      · intro hnone; left; rw [hr, hnone]
    | true =>
      have hr := hybrid_else_merge p1 p2 hasKey t h hm
      fin_cases hacc <;>
        refine ⟨fun hsome => ?_, fun hnone => ?_⟩ <;>
        rw [hr] <;>
        simp only
      case _ =>
        obtain ⟨v, hv⟩ := Option.isSome_iff_exists.mp hsome
        rw [hv, fillIf_some]
      case _ => rw [hnone]; exact fillIf_none_cases _
      case _ =>
        obtain ⟨v, hv⟩ := Option.isSome_iff_exists.mp hsome
        rw [hv, fillIf_some]
      case _ => rw [hnone]; exact fillIf_none_cases _
      case _ =>
        obtain ⟨v, hv⟩ := Option.isSome_iff_exists.mp hsome
        rw [hv, fillIf_some]
      case _ => rw [hnone]; exact fillIf_none_cases _
      case _ =>
        obtain ⟨v, hv⟩ := Option.isSome_iff_exists.mp hsome
        rw [hv, fillIf_some]
      case _ => rw [hnone]; exact fillIf_none_cases _
      case _ =>
        obtain ⟨v, hv⟩ := Option.isSome_iff_exists.mp hsome
        rw [hv, fillIf_some]
      case _ => rw [hnone]; exact fillIf_none_cases _

/-- C1 counterexample: with the primary yielding `{bp: null, pulse: "80"}`
and the regex fallback finding `{bp: "120/80", pulse: "75"}` on the same
transcript, the orchestrator short-circuits and returns
`{bp: null, pulse: "80"}`, not the claimed merge `{bp: "120/80",
pulse: "80"}`. -/
theorem C1_counterexample :
    normalize_vitals (Json.obj [("bp".data, Json.null), ("pulse".data, Json.str "80".data)])
        = ⟨none, none, some "80".data, none, none⟩
      ∧ extract_vitals_regex "bp: 120/80, pulse: 75".data
          = ⟨some "120/80".data, none, some "75".data, none, none⟩
      ∧ extract_vitals_hybrid
            [("bp".data, Json.null), ("pulse".data, Json.str "80".data)]
            [("bp".data, Json.null), ("pulse".data, Json.str "80".data)]
            true "bp: 120/80, pulse: 75".data
          = ⟨none, none, some "80".data, none, none⟩
      ∧ extract_vitals_hybrid
            [("bp".data, Json.null), ("pulse".data, Json.str "80".data)]
            [("bp".data, Json.null), ("pulse".data, Json.str "80".data)]
            true "bp: 120/80, pulse: 75".data
          ≠ ⟨some "120/80".data, none, some "80".data, none, none⟩ := by
  refine ⟨by decide, by decide, by decide, by decide⟩

/-- C1 witness: the short-circuit branch of the amended theorem at a
concrete primary record with one truthy field. -/
theorem C1_witness :
    extract_vitals_hybrid [("pulse".data, Json.str "80".data)] [] true
        "bp: 120/80".data
      = normalize_vitals (Json.obj [("pulse".data, Json.str "80".data)]) :=
  (C1_thm [("pulse".data, Json.str "80".data)] [] true "bp: 120/80".data).1 (by decide)

/-! ### Dictionary lemmas for the field-defaulting loops -/

theorem jGet_append_single_eq (l : List (List Char × Json)) (k : List Char) (v : Json) :
    jGet (l ++ [(k, v)]) k = some v := by
  unfold jGet
  rw [List.filter_append]
  simp

theorem jGet_append_single_ne (l : List (List Char × Json)) (k : List Char) (v : Json)
    (k' : List Char) (h : (k == k') = false) :
    jGet (l ++ [(k, v)]) k' = jGet l k' := by
  unfold jGet
  rw [List.filter_append]
  simp [List.filter_cons, h]

theorem jMem_append_single (l : List (List Char × Json)) (k : List Char) (v : Json)
    (k' : List Char) : jMem (l ++ [(k, v)]) k' = (jMem l k' || k == k') := by
  unfold jMem
  simp [List.any_append]

/-- The probability carried by a successfully converted diagnosis item is
exactly the float value of the raw dict's `probability` entry (default
`0.5` when absent) — no transformation is applied. -/
theorem mkDiagItem_prob (o : List (List Char × Json)) (it : DiagnosisItem)
    (h : mkDiagItem o = some (some it)) :
    floatOfJson ((jGet o "probability".data).getD (Json.num "0.5".data))
      = some it.probability := by
  unfold mkDiagItem at h
  by_cases hct : jTruthy (condOf o) = false
  · rw [if_pos (by simpa using hct)] at h
    simp at h
  · rw [if_neg (by simpa using hct)] at h
    cases hcs : strOfJson (condOf o) with
    | none => rw [hcs] at h; simp at h
    | some cs =>
      rw [hcs] at h
      cases hp : floatOfJson ((jGet o "probability".data).getD (Json.num "0.5".data)) with
      | none => rw [hp] at h; simp at h
      | some p =>
        rw [hp] at h
        cases hr : strOfJson ((jGet o "reasoning".data).getD (Json.str [])) with
        | none => rw [hr] at h; simp at h
        | some rs =>
          rw [hr] at h
          cases hd : (jGet o "detailed_reasoning".data).getD Json.null with
          | null => rw [hd] at h; simp at h; rw [← h]
          | str ds => rw [hd] at h; simp at h; rw [← h]
          | bool b => rw [hd] at h; simp at h
          | num n => rw [hd] at h; simp at h
          | arr l => rw [hd] at h; simp at h
          | obj oo => rw [hd] at h; simp at h

/-- The condition of a successfully converted diagnosis item is non-empty
and comes from the raw dict's `condition`/`diagnosis` fields. -/
theorem mkDiagItem_cond (o : List (List Char × Json)) (it : DiagnosisItem)
    (h : mkDiagItem o = some (some it)) :
    it.condition ≠ [] ∧ condOf o = Json.str it.condition := by
  unfold mkDiagItem at h
  by_cases hct : jTruthy (condOf o) = false
  · rw [if_pos (by simpa using hct)] at h
    simp at h
  · have hcT : jTruthy (condOf o) = true := by
      cases hjt : jTruthy (condOf o)
      · exact absurd hjt hct
      · rfl
    rw [if_neg (by simpa using hct)] at h
    cases hcs : strOfJson (condOf o) with
    | none => rw [hcs] at h; simp at h
    | some cs =>
      rw [hcs] at h
      have hcnd : condOf o = Json.str cs := by
        cases hc : condOf o <;> rw [hc] at hcs <;> simp [strOfJson] at hcs
        rw [hcs]
      have hne : cs ≠ [] := by
        intro e
        rw [hcnd, e] at hcT
        simp [jTruthy] at hcT
      cases hp : floatOfJson ((jGet o "probability".data).getD (Json.num "0.5".data)) with
      | none => rw [hp] at h; simp at h
      | some p =>
        rw [hp] at h
        cases hr : strOfJson ((jGet o "reasoning".data).getD (Json.str [])) with
        | none => rw [hr] at h; simp at h
        | some rs =>
          rw [hr] at h
          cases hd : (jGet o "detailed_reasoning".data).getD Json.null with
          | null => rw [hd] at h; simp at h; rw [← h]; exact ⟨hne, hcnd⟩
          | str ds => rw [hd] at h; simp at h; rw [← h]; exact ⟨hne, hcnd⟩
          | bool b => rw [hd] at h; simp at h
          | num n => rw [hd] at h; simp at h
          | arr l => rw [hd] at h; simp at h
          | obj oo => rw [hd] at h; simp at h

/-- C2 (amended): the diagnosis pipeline applies no clamping and no
percentage division.  Every converted item's probability is exactly the
float value of its raw dict's `probability` entry, with `0.5` substituted
only when the key is absent; and the Groq-response field-defaulting pass
inserts `0.7` for a missing `probability`, leaving present values
untouched. -/
theorem C2_thm :
    (∀ (raws : List (List (List Char × Json))) (items : List DiagnosisItem),
        diagnose_items raws = some items →
        ∀ it ∈ items, ∃ o ∈ raws,
          floatOfJson ((jGet o "probability".data).getD (Json.num "0.5".data))
            = some it.probability)
      ∧ fixDiag (Json.obj [("diagnosis".data, Json.str "Flu".data)])
          = some [("diagnosis".data, Json.str "Flu".data),
                  ("probability".data, Json.num "0.7".data),
                  ("reasoning".data, Json.str "Based on symptom analysis.".data),
                  ("detailed_reasoning".data,
                    Json.str "Based on symptom analysis.".data)] := by
  constructor
  · intro raws
    induction raws with
    | nil =>
      intro items h it hit
      simp [diagnose_items] at h
      subst h
      cases hit
    | cons o os ih =>
      intro items h it hit
      unfold diagnose_items at h
      cases hmk : mkDiagItem o with
      | none => rw [hmk] at h; cases h
      | some oi =>
        rw [hmk] at h
        cases oi with
        | none =>
          cases hrest : diagnose_items os with
          | none => rw [hrest] at h; cases h
          | some items2 =>
            rw [hrest] at h
            have he : items2 = items := by simpa using h
            obtain ⟨o2, ho2, hp⟩ := ih items2 hrest it (he ▸ hit)
            exact ⟨o2, List.mem_cons_of_mem o ho2, hp⟩
        | some it0 =>
          cases hrest : diagnose_items os with
          | none => rw [hrest] at h; cases h
          | some items2 =>
            rw [hrest] at h
            have he : it0 :: items2 = items := by simpa using h
            rw [← he] at hit
            rcases List.mem_cons.mp hit with rfl | hit2
            · exact ⟨o, List.mem_cons_self o os, mkDiagItem_prob o it hmk⟩
            · obtain ⟨o2, ho2, hp⟩ := ih items2 hrest it hit2
              exact ⟨o2, List.mem_cons_of_mem o ho2, hp⟩
  · rfl

/-- C2 counterexample: run through the pipeline, a candidate arriving with
`probability: 85` keeps probability 85 — not 0.85 (= `mkRat 17 20`) — and
one with `1.5` keeps 3/2, not clamped to 1. -/
theorem C2_counterexample :
    diagnose_items (groq_diagnosis_from_text
        "[\x7b\"diagnosis\": \"Malaria\", \"probability\": 85, \"reasoning\": \"r\", \"detailed_reasoning\": \"d\"\x7d]".data)
        = some [⟨"Malaria".data, 85, "r".data, some "d".data⟩]
      ∧ ratOfNumLit "0.85".data = mkRat 17 20
      ∧ (85 : ℚ) ≠ mkRat 17 20
      ∧ diagnose_items (groq_diagnosis_from_text
            "[\x7b\"diagnosis\": \"X\", \"probability\": 1.5, \"reasoning\": \"r\"\x7d]".data)
          = some [⟨"X".data, mkRat 3 2, "r".data, some "r".data⟩]
      ∧ ¬ (mkRat 3 2 ≤ 1) := by
  refine ⟨by decide, by decide, by decide, by decide, by decide⟩

/-- C2 witness: the pass-through theorem applied to a raw candidate whose
probability is 85. -/
theorem C2_witness :
    ∃ o ∈ [[("diagnosis".data, Json.str "X".data),
            ("probability".data, Json.num "85".data)]],
      floatOfJson ((jGet o "probability".data).getD (Json.num "0.5".data))
        = some ((⟨"X".data, 85, [], none⟩ : DiagnosisItem).probability) :=
  C2_thm.1
    [[("diagnosis".data, Json.str "X".data), ("probability".data, Json.num "85".data)]]
    [⟨"X".data, 85, [], none⟩] (by decide) ⟨"X".data, 85, [], none⟩ (by decide)

/-- C5 (amended): in both the initial-diagnosis and confirm-diagnosis
conversion loops, a candidate with a falsy condition is discarded, never
defaulted — every emitted item carries a non-empty condition taken from
the raw dict's `condition`/`diagnosis` fields.  (The at-most-3 bound of
the original claim is not enforced on these paths; see the
counterexample.) -/
theorem C5_thm :
    (∀ (raws : List (List (List Char × Json))) (items : List DiagnosisItem),
        diagnose_items raws = some items →
        ∀ it ∈ items, it.condition ≠ [] ∧ ∃ o ∈ raws, condOf o = Json.str it.condition)
      ∧ (∀ (raws : List (List (List Char × Json))),
          ∀ o2 ∈ confirm_final raws,
            ∃ o ∈ raws, jGet o2 "condition".data = some (condOf o)
              ∧ jTruthy (condOf o) = true) := by
  constructor
  · intro raws
    induction raws with
    | nil =>
      intro items h it hit
      simp [diagnose_items] at h
      subst h
      cases hit
    | cons o os ih =>
      intro items h it hit
      unfold diagnose_items at h
      cases hmk : mkDiagItem o with
      | none => rw [hmk] at h; cases h
      | some oi =>
        rw [hmk] at h
        cases oi with
        | none =>
          cases hrest : diagnose_items os with
          | none => rw [hrest] at h; cases h
          | some items2 =>
            rw [hrest] at h
            have he : items2 = items := by simpa using h
            obtain ⟨hne, o2, ho2, hc⟩ := ih items2 hrest it (he ▸ hit)
            exact ⟨hne, o2, List.mem_cons_of_mem o ho2, hc⟩
        | some it0 =>
          cases hrest : diagnose_items os with
          | none => rw [hrest] at h; cases h
          | some items2 =>
            rw [hrest] at h
            have he : it0 :: items2 = items := by simpa using h
            rw [← he] at hit
            rcases List.mem_cons.mp hit with rfl | hit2
            · obtain ⟨hne, hcnd⟩ := mkDiagItem_cond o it hmk
              exact ⟨hne, o, List.mem_cons_self o os, hcnd⟩
            · obtain ⟨hne, o2, ho2, hc⟩ := ih items2 hrest it hit2
              exact ⟨hne, o2, List.mem_cons_of_mem o ho2, hc⟩
  · intro raws
    induction raws with
    | nil => intro o2 h; cases h
    | cons o os ih =>
      intro o2 h
      unfold confirm_final at h
      by_cases hc : (!jTruthy (condOf o)) = true
      · rw [if_pos hc] at h
        obtain ⟨o3, ho3, hj, ht⟩ := ih o2 h
        exact ⟨o3, List.mem_cons_of_mem o ho3, hj, ht⟩
      · rw [if_neg hc] at h
        have hct : jTruthy (condOf o) = true := by
          cases hjt : jTruthy (condOf o)
          · rw [hjt] at hc; simp at hc
          · rfl
        rcases List.mem_cons.mp h with rfl | h2
        · exact ⟨o, List.mem_cons_self o os, rfl, hct⟩
        · obtain ⟨o3, ho3, hj, ht⟩ := ih o2 h2
          exact ⟨o3, List.mem_cons_of_mem o ho3, hj, ht⟩

/-- C5 counterexample: a model answer with four well-formed candidates
passes through the initial-diagnosis pipeline as four items — the claimed
at-most-3 bound is not enforced. -/
theorem C5_counterexample :
    (diagnose_items (groq_diagnosis_from_text
        "[\x7b\"diagnosis\":\"A\"\x7d,\x7b\"diagnosis\":\"B\"\x7d,\x7b\"diagnosis\":\"C\"\x7d,\x7b\"diagnosis\":\"D\"\x7d]".data)).map
        List.length = some 4
      ∧ ¬ (4 ≤ 3) := by
  refine ⟨by decide, by decide⟩

/-- C5 witness: the discard-never-default property applied to a concrete
one-candidate list. -/
theorem C5_witness :
    (⟨"Flu".data, mkRat 1 2, [], none⟩ : DiagnosisItem).condition ≠ []
      ∧ ∃ o ∈ [[("diagnosis".data, Json.str "Flu".data)]],
          condOf o = Json.str (⟨"Flu".data, mkRat 1 2, [], none⟩ : DiagnosisItem).condition :=
  C5_thm.1 [[("diagnosis".data, Json.str "Flu".data)]]
    [⟨"Flu".data, mkRat 1 2, [], none⟩] (by decide)
    ⟨"Flu".data, mkRat 1 2, [], none⟩ (by decide)

/-- The `pick` helper returns the value of the first alias that is present
with a non-`None`, non-`""` value; all earlier aliases were absent or held
excluded values. -/
theorem pick_spec (keys : List (List Char)) (o : List (List Char × Json)) (v : Json)
    (h : pick keys o = some v) :
    ∃ ks1 k ks2, keys = ks1 ++ k :: ks2 ∧ jGet o k = some v
      ∧ presentNonEmpty v = true
      ∧ ∀ k' ∈ ks1, ∀ w, jGet o k' = some w → presentNonEmpty w = false := by
  induction keys with
  | nil => simp [pick] at h
  | cons k ks ih =>
    unfold pick at h
    cases hg : jGet o k with
    | some w =>
      rw [hg] at h
      have h2 : (if presentNonEmpty w = true then some w else pick ks o) = some v := h
      by_cases hw : presentNonEmpty w = true
      · rw [if_pos hw] at h2
        have hv : w = v := by simpa using h2
        exact ⟨[], k, ks, rfl, hv ▸ hg, hv ▸ hw, by simp⟩
      · rw [if_neg hw] at h2
        obtain ⟨ks1, k1, ks2, he, hj, hp, hall⟩ := ih h2
        refine ⟨k :: ks1, k1, ks2, by rw [he]; rfl, hj, hp, ?_⟩
        intro k' hk' w2 hw2
        rcases List.mem_cons.mp hk' with rfl | hk2
        · rw [hg] at hw2
          have hww : w = w2 := by simpa using hw2
          rw [← hww]
          simpa using hw
        · exact hall k' hk2 w2 hw2
    | none =>
      rw [hg] at h
      have h2 : pick ks o = some v := h
      obtain ⟨ks1, k1, ks2, he, hj, hp, hall⟩ := ih h2
      refine ⟨k :: ks1, k1, ks2, by rw [he]; rfl, hj, hp, ?_⟩
      intro k' hk' w2 hw2
      rcases List.mem_cons.mp hk' with rfl | hk2
      · rw [hg] at hw2; cases hw2
      · exact hall k' hk2 w2 hw2

/-- C8: the field normalizer never fails — non-object input yields the
all-null record; `{"heart_rate": 88}` normalizes to `pulse="88"` with all
other fields null; each canonical field takes the *first* alias present
with a non-excluded value (all earlier aliases were absent or excluded);
and a present pick is never dropped (the output field is present exactly
when the pick is, coerced to a string). -/
theorem C8_thm :
    (∀ j : Json, (∀ o, j ≠ Json.obj o) → normalize_vitals j = allNullVitals)
      ∧ normalize_vitals (Json.obj [("heart_rate".data, Json.num "88".data)])
          = ⟨none, none, some "88".data, none, none⟩
      ∧ (∀ (keys : List (List Char)) (o : List (List Char × Json)) (v : Json),
          pick keys o = some v →
          ∃ ks1 k ks2, keys = ks1 ++ k :: ks2 ∧ jGet o k = some v
            ∧ presentNonEmpty v = true
            ∧ ∀ k' ∈ ks1, ∀ w, jGet o k' = some w → presentNonEmpty w = false)
      ∧ (∀ o : List (List Char × Json),
          (normalize_vitals (Json.obj o)).pulse.isSome = (pick pulseKeys o).isSome) := by
  refine ⟨?_, by decide, pick_spec, ?_⟩
  · intro j hj
    cases j with
    | obj o => exact absurd rfl (hj o)
    | null => rfl
    | bool b => rfl
    | num n => rfl
    | str s => rfl
    | arr l => rfl
  · intro o
    cases hp : pick pulseKeys o <;> simp [normalize_vitals, hp]

/-- C8 witness: non-object input and first-alias selection at concrete
values. -/
theorem C8_witness :
    normalize_vitals (Json.str "x".data) = allNullVitals
      ∧ (∃ ks1 k ks2, pulseKeys = ks1 ++ k :: ks2
          ∧ jGet [("heart_rate".data, Json.num "88".data)] k = some (Json.num "88".data)
          ∧ presentNonEmpty (Json.num "88".data) = true
          ∧ ∀ k' ∈ ks1, ∀ w,
              jGet [("heart_rate".data, Json.num "88".data)] k' = some w →
              presentNonEmpty w = false) :=
  ⟨C8_thm.1 (Json.str "x".data) (fun o h => Json.noConfusion h),
   C8_thm.2.2.1 pulseKeys [("heart_rate".data, Json.num "88".data)]
     (Json.num "88".data) (by rfl)⟩

end MediV
